import Mathlib

/-!
Verification of the differential test-collection harness (SWE-bench Kotlin
collector) against its specification.

The development shallowly embeds the Python sources:

* `src/swebench/harness/log_parsers/kotlin.py` — `parse_log_gradle`, the
  two-tier Gradle log parser (JUnit-XML tier with a regex free-text
  fallback);
* `src/swebench/collect/collect_tests.py` — `TestResult`,
  `run_tests_in_container`, `collect_tests_for_instance`,
  `get_instances_to_process` and the early-return prefix of `main`.

Python strings are modelled as `List Char`, Python `set` as a duplicate-free
`List String` (insertion order; the enumeration order of a Python set is
arbitrary and no property here depends on it), and Python `dict` as an
insertion-ordered association list `List (String × String)` with
overwrite-in-place assignment (`dictSet`), exactly the Python semantics.
Container side effects (Docker exec results, timeouts, exceptions) are
supplied by an explicit environment record, so the control flow of the
Python functions is reproduced over those oracle values.
-/

/-! ## Python string primitives -/

/-- Python `str.splitlines` line-break characters
(`\n`, `\r`, `\v`, `\f`, `\x1c`, `\x1d`, `\x1e`, `\x85`, `U+2028`, `U+2029`;
`\r\n` counts as a single break). -/
def isLineBreakChar (c : Char) : Bool :=
  c = '\n' || c = '\r' || c = '\x0b' || c = '\x0c' ||
  c = '\x1c' || c = '\x1d' || c = '\x1e' || c = '\x85' ||
  c.toNat = 0x2028 || c.toNat = 0x2029

/-- Python whitespace (`str.strip`, regex `\s`/`\S` for `str` patterns):
ASCII whitespace plus the Unicode space characters. -/
def isPySpace (c : Char) : Bool :=
  c = ' ' || c = '\t' || c = '\n' || c = '\r' || c = '\x0b' || c = '\x0c' ||
  c = '\x1c' || c = '\x1d' || c = '\x1e' || c = '\x1f' ||
  c = '\x85' || c.toNat = 0xa0 || c.toNat = 0x1680 ||
  (0x2000 <= c.toNat && c.toNat <= 0x200a) ||
  c.toNat = 0x2028 || c.toNat = 0x2029 || c.toNat = 0x202f ||
  c.toNat = 0x205f || c.toNat = 0x3000

/-- Accumulator-based core of `splitlines`: `acc` is the current line reversed,
`lastCR` records that the previous character was a `\r` whose line is already
closed, so an immediately following `\n` is part of the same break. -/
def splitlinesAux : List Char → List Char → Bool → List (List Char)
  | [], acc, _ => if acc.isEmpty then [] else [acc.reverse]
  | c :: rest, acc, lastCR =>
    if lastCR && c = '\n' then splitlinesAux rest acc false
    else if isLineBreakChar c then acc.reverse :: splitlinesAux rest [] (c = '\r')
    else splitlinesAux rest (c :: acc) false

/-- Python `str.splitlines`: e.g. `"a\r\nb"` ↦ `["a", "b"]`, `"a\n"` ↦ `["a"]`,
`""` ↦ `[]`. -/
def splitlines (cs : List Char) : List (List Char) :=
  splitlinesAux cs [] false

/-- Whether `pre` is an initial segment of `l`. -/
def beginsWith : List Char → List Char → Bool
  | [], _ => true
  | _ :: _, [] => false
  | a :: as, b :: bs => a = b && beginsWith as bs

/-- Whether `suf` is a final segment of `l`. -/
def finishesWith (suf l : List Char) : Bool :=
  beginsWith suf.reverse l.reverse

/-- Python `str.find` restricted to found/not-found: the least index at which
`needle` occurs in `hay`, if any (`hay.find(needle)` returns that index or -1). -/
def firstIdx (needle : List Char) : List Char → Option Nat
  | [] => if beginsWith needle [] then some 0 else none
  | c :: rest =>
    if beginsWith needle (c :: rest) then some 0
    else Option.map (· + 1) (firstIdx needle rest)

/-- Python `needle in hay` for strings. -/
def containsSub (needle hay : List Char) : Bool :=
  (firstIdx needle hay).isSome

/-- Python `str.strip()` with no argument: drop leading and trailing whitespace. -/
def pyStrip (s : String) : String :=
  String.mk (((s.toList.dropWhile isPySpace).reverse.dropWhile isPySpace).reverse)

/-- Lexicographic code-point order on strings, the order Python `sorted` uses
for `str`. -/
def lexLe : List Char → List Char → Bool
  | [], _ => true
  | _ :: _, [] => false
  | c :: cs, d :: ds =>
    if c.toNat < d.toNat then true
    else if d.toNat < c.toNat then false
    else lexLe cs ds

/-- Insert a string into a `lexLe`-sorted list, keeping it sorted. -/
def insertSorted (x : String) : List String → List String
  | [] => [x]
  | y :: ys => if lexLe x.toList y.toList then x :: y :: ys else y :: insertSorted x ys

/-- Python `sorted` on a collection of strings (insertion sort; Python's
timsort computes the same sorted sequence on duplicate-free input). -/
def sortList (l : List String) : List String :=
  l.foldr insertSorted []

/-! ## Python `set` and `dict` models -/

/-- Boolean string-list membership (`x in s` for a Python set modelled as a
list). -/
def elemStr (x : String) : List String → Bool
  | [] => false
  | y :: ys => if x = y then true else elemStr x ys

/-- Python `set.add`: sets are modelled as duplicate-free lists, so adding an
element appends it when absent. -/
def setAdd (s : List String) (x : String) : List String :=
  if elemStr x s then s else s ++ [x]

/-- Python set union `a | b`. -/
def setUnion (a b : List String) : List String :=
  b.foldl setAdd a

/-- Python set intersection `a & b`. -/
def setInter (a b : List String) : List String :=
  a.filter (fun x => elemStr x b)

/-- Python `set.remove`: on the duplicate-free list model, removing an
element is dropping every occurrence of it. -/
def setRemove (s : List String) (x : String) : List String :=
  s.filter (fun y => if y = x then false else true)

/-- Python dict assignment `d[k] = v`: when the key is bound, overwrite its
value in place (Python keeps the key's original position, and a dict binds
each key at most once); otherwise append the new binding. -/
def dictSet (d : List (String × String)) (k v : String) : List (String × String) :=
  match d with
  | [] => [(k, v)]
  | (k1, v1) :: rest => if k1 = k then (k, v) :: rest else (k1, v1) :: dictSet rest k v

/-- Python dict lookup `d[t]` as an `Option`. -/
def dictLookup (d : List (String × String)) (t : String) : Option String :=
  match d with
  | [] => none
  | (k, v) :: rest => if k = t then some v else dictLookup rest t

/-- Keys of the dict, in insertion order. -/
def dictKeys (d : List (String × String)) : List String :=
  d.map Prod.fst

/-! ## TestStatus constants

The parser and `TestResult.from_status_map` both use
`swebench.harness.constants.TestStatus` (the standard SWE-bench enum of
status strings); only the four `.value` strings matter here. -/

def TestStatus.PASSED : String := "PASSED"

def TestStatus.FAILED : String := "FAILED"

def TestStatus.SKIPPED : String := "SKIPPED"

def TestStatus.ERROR : String := "ERROR"

/-! ## Regex matchers of the free-text fallback

`parse_log_gradle`'s fallback tier matches each line against three ordered
pattern families (`passed_res`, `failed_res`, `skipped_res`). Each Python
pattern is of one of two shapes, embedded exactly:

* `^> Task :(\S+)SUF$` — the line is `"> Task :"`, then the group (one or
  more non-whitespace characters), then the literal suffix `SUF`;
* `^(.+ > .+)SUF$` — the line is the group followed by the literal suffix,
  and the group splits as `x ++ " > " ++ y` with `x` and `y` non-empty
  (lines carry no `\n`, so `.` never fails inside a line).

Both use `re.match` (anchored at the start) and `$` (end of the line). -/

def taskHead : List Char := "> Task :".toList

/-- Matcher for `^> Task :(\S+)SUF$`: `suffix` is `SUF` (with its leading
space), the returned string is group 1. -/
def matchTask (suffix : List Char) (line : List Char) : Option String :=
  if beginsWith taskHead line then
    let rest := line.drop taskHead.length
    if finishesWith suffix rest then
      let g := rest.take (rest.length - suffix.length)
      if 0 < g.length && g.all (fun c => !(isPySpace c)) then some (String.mk g)
      else none
    else none
  else none

/-- Whether the list contains `' ' :: '>' :: ' '` followed by at least one
character, starting at any position. -/
def hasSepThenChar : List Char → Bool
  | ' ' :: '>' :: ' ' :: _ :: _ => true
  | _ :: rest => hasSepThenChar rest
  | [] => false

/-- Whether `g` matches `.+ > .+` in full: some occurrence of `" > "` has at
least one character on each side. -/
def qualOk (g : List Char) : Bool :=
  match g with
  | [] => false
  | _ :: rest => hasSepThenChar rest

/-- Matcher for `^(.+ > .+)SUF$`: the group is the line with the literal
suffix removed, accepted when it matches `.+ > .+`. -/
def matchQual (suffix : List Char) (line : List Char) : Option String :=
  if finishesWith suffix line then
    let g := line.take (line.length - suffix.length)
    if qualOk g then some (String.mk g) else none
  else none

/-- The `passed_res` pattern list of `parse_log_gradle`:
`^> Task :(\S+)$`, `^> Task :(\S+) UP-TO-DATE$`, `^(.+ > .+) PASSED$`. -/
def passed_res : List (List Char → Option String) :=
  [matchTask [], matchTask " UP-TO-DATE".toList, matchQual " PASSED".toList]

/-- The `failed_res` pattern list:
`^> Task :(\S+) FAILED$`, `^(.+ > .+) FAILED$`. -/
def failed_res : List (List Char → Option String) :=
  [matchTask " FAILED".toList, matchQual " FAILED".toList]

/-- The `skipped_res` pattern list:
`^> Task :(\S+) SKIPPED$`, `^> Task :(\S+) NO-SOURCE$`, `^(.+ > .+) SKIPPED$`. -/
def skipped_res : List (List Char → Option String) :=
  [matchTask " SKIPPED".toList, matchTask " NO-SOURCE".toList,
   matchQual " SKIPPED".toList]

/-! ## The three verdict sets accumulated by the parser -/

/-- The `passed_tests`, `failed_tests`, `skipped_tests` sets of
`parse_log_gradle`. -/
structure ParseSets where
  passed : List String
  failed : List String
  skipped : List String

/-- One passed-pattern probe of one line: add the group to `passed_tests`
unless it is already in `failed_tests`
(`if m and m.group(1) not in failed_tests: passed_tests.add(m.group(1))`). -/
def applyPassedStep (line : List Char) (st : ParseSets)
    (m : List Char → Option String) : ParseSets :=
  match m line with
  | some g => if elemStr g st.failed then st else { st with passed := setAdd st.passed g }
  | none => st

/-- One failed-pattern probe of one line: add the group to `failed_tests` and
remove it from `passed_tests`
(`failed_tests.add(g); if g in passed_tests: passed_tests.remove(g)`). -/
def applyFailedStep (line : List Char) (st : ParseSets)
    (m : List Char → Option String) : ParseSets :=
  match m line with
  | some g => { st with failed := setAdd st.failed g, passed := setRemove st.passed g }
  | none => st

/-- One skipped-pattern probe of one line: add the group to `skipped_tests`. -/
def applySkippedStep (line : List Char) (st : ParseSets)
    (m : List Char → Option String) : ParseSets :=
  match m line with
  | some g => { st with skipped := setAdd st.skipped g }
  | none => st

/-- Process one line of the fallback loop: all passed patterns, then all
failed patterns, then all skipped patterns, in the source's order. -/
def procLine (st : ParseSets) (line : List Char) : ParseSets :=
  let st1 := passed_res.foldl (applyPassedStep line) st
  let st2 := failed_res.foldl (applyFailedStep line) st1
  skipped_res.foldl (applySkippedStep line) st2

/-- The verdict sets the regex fallback accumulates over
`log.splitlines()`. -/
def fallbackSets (log : String) : ParseSets :=
  (splitlines log.toList).foldl procLine ⟨[], [], []⟩

/-! ## The JUnit-XML tier

`parse_log_gradle` slices `log[xml_start:xml_end]` out of the raw log and
feeds it to `xml.etree.ElementTree.fromstring`. The XML reader is embedded
as a fuel-indexed recursive-descent parser over the characters: elements
with attributes, self-closing tags, skipped text, comments and CDATA — the
grammar fragment the merged Gradle JUnit reports use. Running out of fuel,
or any malformed input, yields `none`, which models `ET.ParseError`. -/

/-- An ElementTree element: tag, attributes, child elements (text content is
irrelevant to `parse_log_gradle` and is dropped while parsing). -/
inductive XmlNode where
  | elem (tag : String) (attrs : List (String × String)) (children : List XmlNode)

def XmlNode.tag : XmlNode → String
  | .elem t _ _ => t

def XmlNode.attrs : XmlNode → List (String × String)
  | .elem _ a _ => a

def XmlNode.children : XmlNode → List XmlNode
  | .elem _ _ ch => ch

/-- All elements strictly below the nodes of the list, preorder, the nodes
themselves included. -/
def descendantsL : List XmlNode → List XmlNode
  | [] => []
  | XmlNode.elem t a ch :: rest =>
    XmlNode.elem t a ch :: (descendantsL ch ++ descendantsL rest)

/-- ElementTree `root.findall(".//TAG")`: every element strictly below the
root whose tag is `TAG`, in document order. -/
def findallDesc (root : XmlNode) (tag : String) : List XmlNode :=
  (descendantsL root.children).filter (fun n => n.tag = tag)

/-- ElementTree `node.findall("TAG")`: the direct children with that tag. -/
def findallChild (node : XmlNode) (tag : String) : List XmlNode :=
  node.children.filter (fun n => n.tag = tag)

/-- ElementTree `node.find("TAG")`: the first direct child with that tag. -/
def childFind (node : XmlNode) (tag : String) : Option XmlNode :=
  node.children.find? (fun n => n.tag = tag)

/-- ElementTree `node.get(key, default)`. -/
def attrGet (node : XmlNode) (key dflt : String) : String :=
  match node.attrs.find? (fun p => p.1 = key) with
  | some p => p.2
  | none => dflt

def isXmlWs (c : Char) : Bool :=
  c = ' ' || c = '\t' || c = '\n' || c = '\r'

def isNameStart (c : Char) : Bool :=
  c.isAlpha || c = '_' || c = ':'

def isNameChar (c : Char) : Bool :=
  c.isAlphanum || c = '_' || c = ':' || c = '-' || c = '.'

/-- Scan an XML name at the head of the input. -/
def scanName : List Char → Option (String × List Char)
  | [] => none
  | c :: rest =>
    if isNameStart c then
      let nm := rest.takeWhile isNameChar
      some (String.mk (c :: nm), rest.drop nm.length)
    else none

/-- The single-quote character, `U+0027`. -/
def squote : Char := Char.ofNat 39

/-- Scan the attribute list of a start tag (`name="value"` or single-quoted,
whitespace-separated), stopping before `>` or `/>`. -/
def scanAttrs (fuel : Nat) (s : List Char) : Option (List (String × String) × List Char) :=
  match fuel with
  | 0 => none
  | fuel + 1 =>
    let s1 := s.dropWhile isXmlWs
    match s1 with
    | [] => some ([], s1)
    | c :: _ =>
      if isNameStart c then
        match scanName s1 with
        | some (nm, r1) =>
          match r1.dropWhile isXmlWs with
          | '=' :: r2 =>
            match r2.dropWhile isXmlWs with
            | '"' :: r3 =>
              let v := r3.takeWhile (fun d => !(d = '"'))
              match r3.drop v.length with
              | '"' :: r5 =>
                match scanAttrs fuel r5 with
                | some (more, r6) => some ((nm, String.mk v) :: more, r6)
                | none => none
              | _ => none
            | c2 :: r3 =>
              if c2 = squote then
                let v := r3.takeWhile (fun d => !(d = squote))
                match r3.drop v.length with
                | c3 :: r5 =>
                  if c3 = squote then
                    match scanAttrs fuel r5 with
                    | some (more, r6) => some ((nm, String.mk v) :: more, r6)
                    | none => none
                  else none
                | _ => none
              else none
            | _ => none
          | _ => none
        | none => none
      else some ([], s1)

mutual

/-- Parse one element starting at `<`. -/
def parseElem (fuel : Nat) (s : List Char) : Option (XmlNode × List Char) :=
  match fuel with
  | 0 => none
  | fuel + 1 =>
    match s with
    | '<' :: r1 =>
      match scanName r1 with
      | some (nm, r2) =>
        match scanAttrs (r2.length + 1) r2 with
        | some (attrs, r3) =>
          match r3.dropWhile isXmlWs with
          | '/' :: '>' :: r4 => some (XmlNode.elem nm attrs [], r4)
          | '>' :: r4 =>
            match parseContent fuel nm r4 with
            | some (ch, r5) => some (XmlNode.elem nm attrs ch, r5)
            | none => none
          | _ => none
        | none => none
      | none => none
    | _ => none

/-- Parse element content up to and including the matching close tag:
text is skipped, comments and CDATA sections are skipped, child elements
are parsed recursively. -/
def parseContent (fuel : Nat) (closeTag : String) (s : List Char) :
    Option (List XmlNode × List Char) :=
  match fuel with
  | 0 => none
  | fuel + 1 =>
    let s1 := s.dropWhile (fun c => !(c = '<'))
    match s1 with
    | '<' :: '/' :: r1 =>
      match scanName r1 with
      | some (nm, r2) =>
        match r2.dropWhile isXmlWs with
        | '>' :: r3 => if nm = closeTag then some ([], r3) else none
        | _ => none
      | none => none
    | '<' :: '!' :: r1 =>
      if beginsWith "--".toList r1 then
        match firstIdx "-->".toList (r1.drop 2) with
        | some i => parseContent fuel closeTag ((r1.drop 2).drop (i + 3))
        | none => none
      else if beginsWith "[CDATA[".toList r1 then
        match firstIdx "]]>".toList (r1.drop 7) with
        | some i => parseContent fuel closeTag ((r1.drop 7).drop (i + 3))
        | none => none
      else none
    | '<' :: _ =>
      match parseElem fuel s1 with
      | some (child, r2) =>
        match parseContent fuel closeTag r2 with
        | some (ch, r3) => some (child :: ch, r3)
        | none => none
      | none => none
    | _ => none

end

/-- ElementTree `ET.fromstring`, as used on the slice: an optional XML
declaration (which, as in XML, may only sit at the very start), the root
element, nothing but whitespace after it. Any malformed input — in
particular every strict prefix of the declaration, which is what the slice
degenerates to when the end sentinel is missing — yields `none`
(`ET.ParseError`). -/
def ET_fromstring (s : List Char) : Option XmlNode :=
  let afterDecl : Option (List Char) :=
    if beginsWith "<?xml".toList s then
      match firstIdx "?>".toList s with
      | some i => some (s.drop (i + 2))
      | none => none
    else some s
  match afterDecl with
  | none => none
  | some r1 =>
    let r2 := r1.dropWhile isXmlWs
    match parseElem (r2.length + 1) r2 with
    | some (root, rem) => if (rem.dropWhile isXmlWs).isEmpty then some root else none
    | none => none

/-- The verdict sets the XML tier accumulates: for every `testsuite`
descendant and every `testcase` child of it, classify by the presence of a
`failure`/`error`/`skipped` child, in that order
(`if failure is not None or error is not None: … elif skipped is not None: …
else: passed`). The identifier is `f"{classname}.{name}"`. -/
def xmlSets (root : XmlNode) : ParseSets :=
  (findallDesc root "testsuite").foldl (fun st suite =>
    (findallChild suite "testcase").foldl (fun st tc =>
      let test_id := attrGet tc "classname" "" ++ "." ++ attrGet tc "name" ""
      if (childFind tc "failure").isSome || (childFind tc "error").isSome then
        { st with failed := setAdd st.failed test_id }
      else if (childFind tc "skipped").isSome then
        { st with skipped := setAdd st.skipped test_id }
      else
        { st with passed := setAdd st.passed test_id }) st) ⟨[], [], []⟩

/-! ## From verdict sets to the status map -/

/-- Write one status for every member of `ts` into the dict
(`for test in ts: test_status_map[test] = v`). -/
def setStatuses (d : List (String × String)) (ts : List String) (v : String) :
    List (String × String) :=
  ts.foldl (fun d t => dictSet d t v) d

/-- The conversion block `parse_log_gradle` runs in both tiers (the source
duplicates it verbatim in the XML branch and after the fallback loop): write
PASSED for `passed_tests`, then FAILED for `failed_tests`, then SKIPPED for
`skipped_tests`, then the synthetic `static_verification` entry, PASSED
exactly when `"STATIC VERIFICATION SUCCESS" in log`. -/
def buildStatusMap (st : ParseSets) (sentinelFound : Bool) :
    List (String × String) :=
  dictSet
    (setStatuses
      (setStatuses
        (setStatuses [] st.passed TestStatus.PASSED)
        st.failed TestStatus.FAILED)
      st.skipped TestStatus.SKIPPED)
    "static_verification"
    (if sentinelFound then TestStatus.PASSED else TestStatus.FAILED)

def xmlDeclChars : List Char := "<?xml version=\"1.0\" encoding=\"UTF-8\"?>".toList

def endTagChars : List Char := "</testsuites>".toList

/-- Whether `"STATIC VERIFICATION SUCCESS" in log`. -/
def hasSentinel (log : String) : Bool :=
  containsSub "STATIC VERIFICATION SUCCESS".toList log.toList

/-- Which verdict sets `parse_log_gradle` ends up converting.
`xml_start = log.find('<?xml …?>')`; `xml_end = log.find('</testsuites>') +
len('</testsuites>')`, so when the end tag is missing `xml_end` is
`-1 + 13 = 12`, which still passes the `xml_end != -1` test — the branch is
entered with the garbage slice `log[xml_start:12]` and `ET.fromstring`
raises, landing in the fallback. When `ET.fromstring` succeeds the XML
branch's sets are used (and the function returns inside the `try`, so the
fallback never runs); on `ET.ParseError` the sets are still empty and the
fallback loop produces them. -/
def parseSetsOf (log : String) : ParseSets :=
  let cs := log.toList
  match firstIdx xmlDeclChars cs with
  | some xs =>
    let stop : Nat :=
      match firstIdx endTagChars cs with
      | some i => i + endTagChars.length
      | none => endTagChars.length - 1
    match ET_fromstring ((cs.take stop).drop xs) with
    | some root => xmlSets root
    | none => fallbackSets log
  | none => fallbackSets log

/-- `parse_log_gradle(log, test_spec)` (the `test_spec` argument is unused by
the source): the status map, a Python dict from test identifier to
`TestStatus` value. -/
def parse_log_gradle (log : String) : List (String × String) :=
  buildStatusMap (parseSetsOf log) (hasSentinel log)

/-- The status map the free-text fallback tier alone would produce. -/
def fallback_parse (log : String) : List (String × String) :=
  buildStatusMap (fallbackSets log) (hasSentinel log)

/-! ## TestResult and the container phases (`collect_tests.py`) -/

/-- The `TestResult` class: four sets of test names. -/
structure TestResult where
  passed : List String
  failed : List String
  skipped : List String
  errors : List String

/-- A freshly constructed `TestResult()`. -/
def emptyTestResult : TestResult := ⟨[], [], [], []⟩

/-- The `all_tests` method: `passed | failed | skipped | errors`. -/
def TestResult.all_tests (r : TestResult) : List String :=
  setUnion (setUnion (setUnion r.passed r.failed) r.skipped) r.errors

/-- One iteration of the `TestResult.from_status_map` loop: route the test
name into the set its status selects (PASSED / FAILED / ERROR / SKIPPED; any
other status is dropped). -/
def fromStatusStep (r : TestResult) (kv : String × String) : TestResult :=
  if kv.2 = TestStatus.PASSED then { r with passed := setAdd r.passed kv.1 }
  else if kv.2 = TestStatus.FAILED then { r with failed := setAdd r.failed kv.1 }
  else if kv.2 = TestStatus.ERROR then { r with errors := setAdd r.errors kv.1 }
  else if kv.2 = TestStatus.SKIPPED then { r with skipped := setAdd r.skipped kv.1 }
  else r

/-- `TestResult.from_status_map(status_map)`. -/
def TestResult.from_status_map (m : List (String × String)) : TestResult :=
  m.foldl fromStatusStep emptyTestResult

/-- The `GIT_APPLY_CMDS` list, strict to lenient. -/
def GIT_APPLY_CMDS : List String :=
  ["git apply --verbose", "git apply --verbose --reject", "patch --batch --fuzz=5 -p1 -i"]

/-- Environment record supplying the container side effects one
`run_tests_in_container` call observes: whether some statement inside the
`try` raised (copy failure, parse exception, …), the exit status of each
patch-apply command, and the output and timeout flag of
`exec_run_with_timeout`. -/
structure ExecEnv where
  raised : Bool
  applySucceeds : String → Bool
  testOutput : String
  timedOut : Bool

/-- The strategy the apply loop stops at: the first command of
`GIT_APPLY_CMDS` whose `exec_run` exits 0 (`for git_apply_cmd in
GIT_APPLY_CMDS: … if val.exit_code == 0: applied_patch = True; break`). -/
def appliedStrategy (env : ExecEnv) : Option String :=
  GIT_APPLY_CMDS.find? env.applySucceeds

/-- The patch-application block of `run_tests_in_container`: with no patch,
or a patch that is empty (`if patch_content and patch_content.strip():`),
nothing is applied and the block trivially succeeds; otherwise it succeeds
exactly when some strategy of `GIT_APPLY_CMDS` exits 0 (`applied_patch`). -/
def patchApplyOk (env : ExecEnv) (patch_content : Option String) : Bool :=
  match patch_content with
  | some p =>
    if p ≠ "" ∧ pyStrip p ≠ "" then (appliedStrategy env).isSome else true
  | none => true

/-- `run_tests_in_container(container, test_spec, patch_content, logger,
timeout)`. First component: the returned `Optional[TestResult]` (`none` on
exception, patch-apply failure or timeout). Second component: whether the
`if not status_map:` branch (log "No tests found in output", return an empty
`TestResult`) executed. The source binds
`status_map = parse_log_gradle(test_output, test_spec)` to a local; it is
inlined here. -/
def run_tests_in_container (env : ExecEnv) (patch_content : Option String) :
    Option TestResult × Bool :=
  if env.raised then (none, false)
  else if patchApplyOk env patch_content = false then (none, false)
  else if env.timedOut then (none, false)
  else if (parse_log_gradle env.testOutput).isEmpty then (some emptyTestResult, true)
  else (some (TestResult.from_status_map (parse_log_gradle env.testOutput)), false)

/-- `collect_tests_for_instance`: the two-phase differential run.
`build1Fails` / `build2Fails` model `build_container` raising
`BuildImageError` before the corresponding phase (caught by the handler that
returns `[], []`). First component: the returned
`(fail_to_pass, pass_to_pass)`. Second component: whether the patched-phase
`run_tests_in_container` call was ever made. -/
def collect_tests_for_instance (build1Fails : Bool) (beforeEnv : ExecEnv)
    (build2Fails : Bool) (afterEnv : ExecEnv) (patch : String) :
    (List String × List String) × Bool :=
  if build1Fails then (([], []), false)
  else
    match (run_tests_in_container beforeEnv none).1 with
    | none => (([], []), false)
    | some before_result =>
      if build2Fails then (([], []), false)
      else
        match (run_tests_in_container afterEnv (some patch)).1 with
        | none => (([], []), true)
        | some after_result =>
          let before_failing := setUnion before_result.failed before_result.errors
          let fail_to_pass := sortList (setInter before_failing after_result.passed)
          let pass_to_pass := sortList (setInter before_result.passed after_result.passed)
          ((fail_to_pass, pass_to_pass), true)

/-! ## The orchestrator's resume filter (`get_instances_to_process`, `main`) -/

/-- A dataset entry as the filter sees it: its `instance_id` and whether the
`FAIL_TO_PASS` / `PASS_TO_PASS` keys are present. -/
structure DatasetInstance where
  instance_id : String
  hasFailToPass : Bool
  hasPassToPass : Bool

/-- `get_instances_to_process(dataset, output_path, instance_ids)`:
restrict to `instance_ids` when given, then drop every instance whose id
appears in the output file with both label fields present. `outputFile` is
the parsed output file, `none` when it is missing or unreadable (in which
case `completed_ids` stays empty). -/
def get_instances_to_process (dataset : List DatasetInstance)
    (outputFile : Option (List DatasetInstance))
    (instance_ids : Option (List String)) : List DatasetInstance :=
  let dataset1 : List DatasetInstance :=
    match instance_ids with
    | some ids => dataset.filter (fun inst => elemStr inst.instance_id ids)
    | none => dataset
  let completed_ids : List String :=
    match outputFile with
    | some existing =>
      (existing.filter (fun inst => inst.hasFailToPass && inst.hasPassToPass)).map
        (fun inst => inst.instance_id)
    | none => []
  dataset1.filter (fun inst => !(elemStr inst.instance_id completed_ids))

/-- The decision prefix of `main`: after filtering, `if not dataset: return`
fires before `docker.from_env()` and `build_env_images`. `none` models that
early return — no Docker client is created, no image is built, and (since
nothing before this point writes) the output file is untouched; `some ds`
means processing continues with the instances `ds`. -/
def main_instances_to_run (dataset : List DatasetInstance)
    (outputFile : Option (List DatasetInstance))
    (instance_ids : Option (List String)) : Option (List DatasetInstance) :=
  let ds := get_instances_to_process dataset outputFile instance_ids
  if ds.isEmpty then none else some ds

/-! ## Concrete fixtures used by witnesses and counterexamples -/

/-- Baseline-phase environment of the spec's concrete scenario: the eval run
reports test `A` failed and test `B` passed. -/
def benvScenario : ExecEnv :=
  ⟨false, fun _ => true, "> Task :A FAILED\n> Task :B", false⟩

/-- Patched-phase environment of the spec's concrete scenario: both `A` and
`B` pass. -/
def aenvScenario : ExecEnv :=
  ⟨false, fun _ => true, "> Task :A\n> Task :B", false⟩

/-- An environment whose eval run times out. -/
def benvTimeout : ExecEnv := ⟨false, fun _ => false, "", true⟩

/-- An environment where only the lenient `patch --fuzz=5` strategy applies
the patch. -/
def envFuzzyOnly : ExecEnv :=
  ⟨false, fun c => decide (c = "patch --batch --fuzz=5 -p1 -i"), "> Task :app", false⟩

/-- An environment where every apply strategy fails. -/
def envNoApply : ExecEnv := ⟨false, fun _ => false, "> Task :app", false⟩

/-- A log whose identifier `a > b` matches a passed pattern on line 3 and a
failed pattern on line 9. -/
def logPassThenFail : String :=
  "x\ny\na > b PASSED\nx\nx\nx\nx\nx\na > b FAILED"

/-- A log whose identifier `a > b` matches both a failed pattern (line 1)
and a skipped pattern (line 2). -/
def logFailAndSkip : String := "a > b FAILED\na > b SKIPPED"

/-- A log that contains the XML declaration but not the `</testsuites>` end
sentinel. -/
def logDeclNoEnd : String :=
  "<?xml version=\"1.0\" encoding=\"UTF-8\"?>\n> Task :app FAILED"

/-- A two-instance dataset, neither instance labelled yet. -/
def datasetTwo : List DatasetInstance := [⟨"i1", false, false⟩, ⟨"i2", false, false⟩]

/-- An output file holding completed labels for both instances. -/
def outputTwoDone : List DatasetInstance := [⟨"i1", true, true⟩, ⟨"i2", true, true⟩]

/-! ## Lemmas on the set and dict models -/

theorem elemStr_iff (x : String) (l : List String) : elemStr x l = true ↔ x ∈ l := by
  induction l with
  | nil => simp [elemStr]
  | cons y ys ih =>
    by_cases h : x = y
    · simp [elemStr, h]
    · simp [elemStr, h, ih]

theorem mem_setAdd (t x : String) (s : List String) :
    t ∈ setAdd s x ↔ t ∈ s ∨ t = x := by
  unfold setAdd
  split
  · next h =>
    rw [elemStr_iff] at h
    constructor
    · exact Or.inl
    · rintro (ht | rfl)
      · exact ht
      · exact h
  · next h => simp

theorem mem_setUnion (t : String) (a b : List String) :
    t ∈ setUnion a b ↔ t ∈ a ∨ t ∈ b := by
  unfold setUnion
  induction b generalizing a with
  | nil => simp
  | cons y ys ih =>
    simp only [List.foldl_cons, ih (setAdd a y), mem_setAdd, List.mem_cons]
    tauto

theorem mem_setInter (t : String) (a b : List String) :
    t ∈ setInter a b ↔ t ∈ a ∧ t ∈ b := by
  unfold setInter
  rw [List.mem_filter, elemStr_iff]

theorem mem_setRemove (t x : String) (s : List String) :
    t ∈ setRemove s x ↔ t ∈ s ∧ t ≠ x := by
  unfold setRemove
  rw [List.mem_filter]
  by_cases h : t = x <;> simp [h]

theorem mem_insertSorted (t x : String) (l : List String) :
    t ∈ insertSorted x l ↔ t = x ∨ t ∈ l := by
  induction l with
  | nil => simp [insertSorted]
  | cons y ys ih =>
    unfold insertSorted
    split
    · simp
    · simp only [List.mem_cons, ih]
      tauto

theorem mem_sortList (t : String) (l : List String) :
    t ∈ sortList l ↔ t ∈ l := by
  unfold sortList
  induction l with
  | nil => simp
  | cons y ys ih =>
    simp only [List.foldr_cons, mem_insertSorted, ih, List.mem_cons]

theorem dictLookup_dictSet (d : List (String × String)) (k v t : String) :
    dictLookup (dictSet d k v) t = if k = t then some v else dictLookup d t := by
  induction d with
  | nil =>
    by_cases h : k = t <;> simp [dictSet, dictLookup, h]
  | cons p rest ih =>
    obtain ⟨k1, v1⟩ := p
    by_cases h1 : k1 = k
    · subst h1
      by_cases h2 : k1 = t <;> simp [dictSet, dictLookup, h2]
    · by_cases h2 : k1 = t
      · subst h2
        have hkt : ¬(k = k1) := fun hh => h1 hh.symm
        simp [dictSet, dictLookup, h1, hkt]
      · simp [dictSet, dictLookup, h1, h2, ih]

theorem dictKeys_dictSet (d : List (String × String)) (k v : String) (t : String) :
    t ∈ dictKeys (dictSet d k v) ↔ t ∈ dictKeys d ∨ t = k := by
  induction d with
  | nil => simp [dictSet, dictKeys]
  | cons p rest ih =>
    obtain ⟨k1, v1⟩ := p
    by_cases h1 : k1 = k
    · subst h1
      simp [dictSet, dictKeys]
      tauto
    · simp [dictSet, dictKeys, h1] at ih ⊢
      tauto

theorem dictKeys_nodup_dictSet (d : List (String × String)) (k v : String)
    (h : (dictKeys d).Nodup) : (dictKeys (dictSet d k v)).Nodup := by
  induction d with
  | nil => simp [dictSet, dictKeys]
  | cons p rest ih =>
    obtain ⟨k1, v1⟩ := p
    rw [dictKeys, List.map_cons, List.nodup_cons] at h
    by_cases h1 : k1 = k
    · subst h1
      have hset : dictSet ((k1, v1) :: rest) k1 v = (k1, v) :: rest := by
        simp [dictSet]
      rw [hset, dictKeys, List.map_cons, List.nodup_cons]
      exact h
    · have hset : dictSet ((k1, v1) :: rest) k v = (k1, v1) :: dictSet rest k v := by
        simp [dictSet, h1]
      rw [hset, dictKeys, List.map_cons, List.nodup_cons]
      constructor
      · intro hmem
        rw [show List.map Prod.fst (dictSet rest k v) = dictKeys (dictSet rest k v) from rfl,
            dictKeys_dictSet] at hmem
        rcases hmem with hmem | hmem
        · exact h.1 hmem
        · exact h1 hmem
      · exact ih h.2

theorem dictSet_vals (P : String → Prop) (d : List (String × String)) (k v : String)
    (hd : ∀ p ∈ d, P p.2) (hv : P v) : ∀ p ∈ dictSet d k v, P p.2 := by
  induction d with
  | nil => simpa [dictSet]
  | cons q rest ih =>
    obtain ⟨k1, v1⟩ := q
    intro p hp
    by_cases h1 : k1 = k
    · subst h1
      rw [dictSet, if_pos rfl] at hp
      rcases List.mem_cons.mp hp with rfl | hp
      · exact hv
      · exact hd p (List.mem_cons_of_mem _ hp)
    · rw [dictSet, if_neg h1] at hp
      rcases List.mem_cons.mp hp with rfl | hp
      · exact hd _ (List.mem_cons_self _ _)
      · exact ih (fun q hq => hd q (List.mem_cons_of_mem _ hq)) p hp

theorem dictSet_ne_nil (d : List (String × String)) (k v : String) :
    (dictSet d k v).isEmpty = false := by
  cases d with
  | nil => simp [dictSet]
  | cons p rest =>
    obtain ⟨k1, v1⟩ := p
    by_cases h1 : k1 = k <;> simp [dictSet, h1]

theorem mem_of_dictLookup (d : List (String × String)) (t v : String)
    (h : dictLookup d t = some v) : (t, v) ∈ d := by
  induction d with
  | nil => simp [dictLookup] at h
  | cons p rest ih =>
    obtain ⟨k1, v1⟩ := p
    rw [dictLookup] at h
    by_cases h1 : k1 = t
    · rw [if_pos h1] at h
      subst h1
      cases h
      exact List.mem_cons_self _ _
    · rw [if_neg h1] at h
      exact List.mem_cons_of_mem _ (ih h)

theorem dictLookup_of_mem_nodup (d : List (String × String)) (t v : String)
    (hnd : (dictKeys d).Nodup) (h : (t, v) ∈ d) : dictLookup d t = some v := by
  induction d with
  | nil => simp at h
  | cons p rest ih =>
    obtain ⟨k1, v1⟩ := p
    rw [dictKeys, List.map_cons, List.nodup_cons] at hnd
    rcases List.mem_cons.mp h with heq | hmem
    · cases heq
      rw [dictLookup, if_pos rfl]
    · have h1 : ¬(k1 = t) := by
        intro hk
        subst hk
        exact hnd.1 (List.mem_map.mpr ⟨(k1, v), hmem, rfl⟩)
      rw [dictLookup, if_neg h1]
      exact ih hnd.2 hmem

theorem dictLookup_isSome_iff (d : List (String × String)) (t : String) :
    (dictLookup d t).isSome = true ↔ t ∈ dictKeys d := by
  induction d with
  | nil => simp [dictLookup, dictKeys]
  | cons p rest ih =>
    obtain ⟨k1, v1⟩ := p
    by_cases h1 : k1 = t
    · simp [dictLookup, dictKeys, h1]
    · have h1t : ¬(t = k1) := fun hh => h1 hh.symm
      simp [dictLookup, dictKeys, h1, h1t, ih]

theorem dictLookup_setStatuses (d : List (String × String)) (ts : List String)
    (v t : String) :
    dictLookup (setStatuses d ts v) t =
      if elemStr t ts = true then some v else dictLookup d t := by
  unfold setStatuses
  induction ts generalizing d with
  | nil => simp [elemStr]
  | cons x xs ih =>
    rw [List.foldl_cons, ih (dictSet d x v)]
    by_cases hxs : elemStr t xs = true
    · rw [if_pos hxs]
      have : elemStr t (x :: xs) = true := by
        rw [elemStr]
        by_cases hx : t = x <;> simp [hx, hxs]
      rw [if_pos this]
    · rw [if_neg hxs, dictLookup_dictSet]
      by_cases hx : x = t
      · subst hx
        have : elemStr x (x :: xs) = true := by simp [elemStr]
        rw [if_pos rfl, if_pos this]
      · have hx2 : ¬(t = x) := fun hh => hx hh.symm
        have : ¬(elemStr t (x :: xs) = true) := by
          rw [elemStr]
          simp [hx2, hxs]
        rw [if_neg hx, if_neg this]

theorem setStatuses_keys_nodup (d : List (String × String)) (ts : List String)
    (v : String) (h : (dictKeys d).Nodup) :
    (dictKeys (setStatuses d ts v)).Nodup := by
  unfold setStatuses
  induction ts generalizing d with
  | nil => simpa
  | cons x xs ih =>
    rw [List.foldl_cons]
    exact ih (dictSet d x v) (dictKeys_nodup_dictSet d x v h)

theorem setStatuses_vals (P : String → Prop) (d : List (String × String))
    (ts : List String) (v : String) (hd : ∀ p ∈ d, P p.2) (hv : P v) :
    ∀ p ∈ setStatuses d ts v, P p.2 := by
  unfold setStatuses
  induction ts generalizing d with
  | nil => exact hd
  | cons x xs ih =>
    rw [List.foldl_cons]
    exact ih (dictSet d x v) (dictSet_vals P d x v hd hv)

theorem buildStatusMap_lookup (st : ParseSets) (sent : Bool) (t : String) :
    dictLookup (buildStatusMap st sent) t =
      if t = "static_verification" then
        some (if sent then TestStatus.PASSED else TestStatus.FAILED)
      else if elemStr t st.skipped = true then some TestStatus.SKIPPED
      else if elemStr t st.failed = true then some TestStatus.FAILED
      else if elemStr t st.passed = true then some TestStatus.PASSED
      else none := by
  unfold buildStatusMap
  rw [dictLookup_dictSet]
  by_cases hs : t = "static_verification"
  · rw [if_pos hs.symm, if_pos hs]
  · have hs2 : ¬("static_verification" = t) := fun hh => hs hh.symm
    rw [if_neg hs2, if_neg hs, dictLookup_setStatuses, dictLookup_setStatuses,
        dictLookup_setStatuses]
    simp [dictLookup]

theorem buildStatusMap_keys_nodup (st : ParseSets) (sent : Bool) :
    (dictKeys (buildStatusMap st sent)).Nodup := by
  unfold buildStatusMap
  apply dictKeys_nodup_dictSet
  apply setStatuses_keys_nodup
  apply setStatuses_keys_nodup
  apply setStatuses_keys_nodup
  simp [dictKeys]

theorem buildStatusMap_vals (st : ParseSets) (sent : Bool) :
    ∀ p ∈ buildStatusMap st sent,
      p.2 = TestStatus.PASSED ∨ p.2 = TestStatus.FAILED ∨ p.2 = TestStatus.SKIPPED := by
  unfold buildStatusMap
  refine dictSet_vals
    (fun s => s = TestStatus.PASSED ∨ s = TestStatus.FAILED ∨ s = TestStatus.SKIPPED)
    _ _ _
    (setStatuses_vals
      (fun s => s = TestStatus.PASSED ∨ s = TestStatus.FAILED ∨ s = TestStatus.SKIPPED)
      _ _ _
      (setStatuses_vals
        (fun s => s = TestStatus.PASSED ∨ s = TestStatus.FAILED ∨ s = TestStatus.SKIPPED)
        _ _ _
        (setStatuses_vals
          (fun s => s = TestStatus.PASSED ∨ s = TestStatus.FAILED ∨ s = TestStatus.SKIPPED)
          _ _ _ (fun p hp => (List.not_mem_nil p hp).elim) (Or.inl rfl))
        (Or.inr (Or.inl rfl)))
      (Or.inr (Or.inr rfl)))
    ?_
  cases sent <;> simp

theorem buildStatusMap_lookup_static (st : ParseSets) (sent : Bool) :
    dictLookup (buildStatusMap st sent) "static_verification" =
      some (if sent then TestStatus.PASSED else TestStatus.FAILED) := by
  unfold buildStatusMap
  rw [dictLookup_dictSet, if_pos rfl]

theorem buildStatusMap_isEmpty (st : ParseSets) (sent : Bool) :
    (buildStatusMap st sent).isEmpty = false := by
  unfold buildStatusMap
  exact dictSet_ne_nil _ _ _

theorem vals_eq_of_nodup (d : List (String × String)) (t v1 v2 : String)
    (hnd : (dictKeys d).Nodup) (h1 : (t, v1) ∈ d) (h2 : (t, v2) ∈ d) : v1 = v2 := by
  have e1 := dictLookup_of_mem_nodup d t v1 hnd h1
  have e2 := dictLookup_of_mem_nodup d t v2 hnd h2
  rw [e1] at e2
  exact Option.some.inj e2

theorem pair_mem_cons_ne (t k v w : String) (m : List (String × String))
    (hvw : ¬(w = v)) : ((t, w) ∈ (k, v) :: m) ↔ (t, w) ∈ m := by
  simp [List.mem_cons, Prod.mk.injEq, hvw]

theorem pair_mem_cons_same (t k v : String) (m : List (String × String)) :
    ((t, v) ∈ (k, v) :: m) ↔ t = k ∨ (t, v) ∈ m := by
  simp [List.mem_cons, Prod.mk.injEq]

theorem fromStatusStep_passed (r : TestResult) (k : String) :
    fromStatusStep r (k, TestStatus.PASSED) = { r with passed := setAdd r.passed k } := by
  unfold fromStatusStep
  rw [if_pos rfl]

theorem fromStatusStep_failed (r : TestResult) (k : String) :
    fromStatusStep r (k, TestStatus.FAILED) = { r with failed := setAdd r.failed k } := by
  unfold fromStatusStep
  rw [if_neg (show ¬(TestStatus.FAILED = TestStatus.PASSED) by decide), if_pos rfl]

theorem fromStatusStep_error (r : TestResult) (k : String) :
    fromStatusStep r (k, TestStatus.ERROR) = { r with errors := setAdd r.errors k } := by
  unfold fromStatusStep
  rw [if_neg (show ¬(TestStatus.ERROR = TestStatus.PASSED) by decide),
      if_neg (show ¬(TestStatus.ERROR = TestStatus.FAILED) by decide), if_pos rfl]

theorem fromStatusStep_skipped (r : TestResult) (k : String) :
    fromStatusStep r (k, TestStatus.SKIPPED) = { r with skipped := setAdd r.skipped k } := by
  unfold fromStatusStep
  rw [if_neg (show ¬(TestStatus.SKIPPED = TestStatus.PASSED) by decide),
      if_neg (show ¬(TestStatus.SKIPPED = TestStatus.FAILED) by decide),
      if_neg (show ¬(TestStatus.SKIPPED = TestStatus.ERROR) by decide), if_pos rfl]

theorem fromStatusStep_other (r : TestResult) (k v : String)
    (h1 : ¬(v = TestStatus.PASSED)) (h2 : ¬(v = TestStatus.FAILED))
    (h3 : ¬(v = TestStatus.ERROR)) (h4 : ¬(v = TestStatus.SKIPPED)) :
    fromStatusStep r (k, v) = r := by
  unfold fromStatusStep
  rw [if_neg h1, if_neg h2, if_neg h3, if_neg h4]

theorem foldStatus_mem (m : List (String × String)) : ∀ (r : TestResult) (t : String),
    (t ∈ (m.foldl fromStatusStep r).passed ↔
      t ∈ r.passed ∨ (t, TestStatus.PASSED) ∈ m) ∧
    (t ∈ (m.foldl fromStatusStep r).failed ↔
      t ∈ r.failed ∨ (t, TestStatus.FAILED) ∈ m) ∧
    (t ∈ (m.foldl fromStatusStep r).errors ↔
      t ∈ r.errors ∨ (t, TestStatus.ERROR) ∈ m) ∧
    (t ∈ (m.foldl fromStatusStep r).skipped ↔
      t ∈ r.skipped ∨ (t, TestStatus.SKIPPED) ∈ m) := by
  induction m with
  | nil => intro r t; simp
  | cons kv m' ih =>
    intro r t
    obtain ⟨k, v⟩ := kv
    rw [List.foldl_cons]
    obtain ⟨ihp, ihf, ihe, ihs⟩ := ih (fromStatusStep r (k, v)) t
    rw [ihp, ihf, ihe, ihs]
    by_cases h1 : v = TestStatus.PASSED
    · subst h1
      rw [fromStatusStep_passed]
      dsimp only
      refine ⟨?_, ?_, ?_, ?_⟩
      · rw [mem_setAdd, pair_mem_cons_same t k]
        exact or_assoc
      · rw [pair_mem_cons_ne t k TestStatus.PASSED TestStatus.FAILED m' (by decide)]
      · rw [pair_mem_cons_ne t k TestStatus.PASSED TestStatus.ERROR m' (by decide)]
      · rw [pair_mem_cons_ne t k TestStatus.PASSED TestStatus.SKIPPED m' (by decide)]
    · by_cases h2 : v = TestStatus.FAILED
      · subst h2
        rw [fromStatusStep_failed]
        dsimp only
        refine ⟨?_, ?_, ?_, ?_⟩
        · rw [pair_mem_cons_ne t k TestStatus.FAILED TestStatus.PASSED m' (by decide)]
        · rw [mem_setAdd, pair_mem_cons_same t k]
          exact or_assoc
        · rw [pair_mem_cons_ne t k TestStatus.FAILED TestStatus.ERROR m' (by decide)]
        · rw [pair_mem_cons_ne t k TestStatus.FAILED TestStatus.SKIPPED m' (by decide)]
      · by_cases h3 : v = TestStatus.ERROR
        · subst h3
          rw [fromStatusStep_error]
          dsimp only
          refine ⟨?_, ?_, ?_, ?_⟩
          · rw [pair_mem_cons_ne t k TestStatus.ERROR TestStatus.PASSED m' (by decide)]
          · rw [pair_mem_cons_ne t k TestStatus.ERROR TestStatus.FAILED m' (by decide)]
          · rw [mem_setAdd, pair_mem_cons_same t k]
            exact or_assoc
          · rw [pair_mem_cons_ne t k TestStatus.ERROR TestStatus.SKIPPED m' (by decide)]
        · by_cases h4 : v = TestStatus.SKIPPED
          · subst h4
            rw [fromStatusStep_skipped]
            dsimp only
            refine ⟨?_, ?_, ?_, ?_⟩
            · rw [pair_mem_cons_ne t k TestStatus.SKIPPED TestStatus.PASSED m' (by decide)]
            · rw [pair_mem_cons_ne t k TestStatus.SKIPPED TestStatus.FAILED m' (by decide)]
            · rw [pair_mem_cons_ne t k TestStatus.SKIPPED TestStatus.ERROR m' (by decide)]
            · rw [mem_setAdd, pair_mem_cons_same t k]
              exact or_assoc
          · rw [fromStatusStep_other r k v h1 h2 h3 h4]
            refine ⟨?_, ?_, ?_, ?_⟩
            · rw [pair_mem_cons_ne t k v TestStatus.PASSED m' (fun hh => h1 hh.symm)]
            · rw [pair_mem_cons_ne t k v TestStatus.FAILED m' (fun hh => h2 hh.symm)]
            · rw [pair_mem_cons_ne t k v TestStatus.ERROR m' (fun hh => h3 hh.symm)]
            · rw [pair_mem_cons_ne t k v TestStatus.SKIPPED m' (fun hh => h4 hh.symm)]

theorem from_status_map_passed (m : List (String × String)) (t : String) :
    t ∈ (TestResult.from_status_map m).passed ↔ (t, TestStatus.PASSED) ∈ m := by
  unfold TestResult.from_status_map
  rw [(foldStatus_mem m emptyTestResult t).1]
  simp [emptyTestResult]

theorem from_status_map_failed (m : List (String × String)) (t : String) :
    t ∈ (TestResult.from_status_map m).failed ↔ (t, TestStatus.FAILED) ∈ m := by
  unfold TestResult.from_status_map
  rw [(foldStatus_mem m emptyTestResult t).2.1]
  simp [emptyTestResult]

theorem from_status_map_errors (m : List (String × String)) (t : String) :
    t ∈ (TestResult.from_status_map m).errors ↔ (t, TestStatus.ERROR) ∈ m := by
  unfold TestResult.from_status_map
  rw [(foldStatus_mem m emptyTestResult t).2.2.1]
  simp [emptyTestResult]

theorem from_status_map_skipped (m : List (String × String)) (t : String) :
    t ∈ (TestResult.from_status_map m).skipped ↔ (t, TestStatus.SKIPPED) ∈ m := by
  unfold TestResult.from_status_map
  rw [(foldStatus_mem m emptyTestResult t).2.2.2]
  simp [emptyTestResult]

/-! ## Invariants of the fallback loop

Once an identifier has matched a failed pattern it is in `failed_tests` and
out of `passed_tests`, and it stays that way: nothing removes from
`failed_tests`, the passed patterns are guarded by `not in failed_tests`,
and a failed match removes the identifier from `passed_tests`. -/

theorem applyPassedStep_none (line : List Char) (st : ParseSets)
    (m : List Char → Option String) (h : m line = none) :
    applyPassedStep line st m = st := by
  unfold applyPassedStep
  rw [h]

theorem applyPassedStep_some (line : List Char) (st : ParseSets)
    (m : List Char → Option String) (g : String) (h : m line = some g) :
    applyPassedStep line st m =
      if elemStr g st.failed = true then st
      else { st with passed := setAdd st.passed g } := by
  unfold applyPassedStep
  rw [h]

theorem applyFailedStep_none (line : List Char) (st : ParseSets)
    (m : List Char → Option String) (h : m line = none) :
    applyFailedStep line st m = st := by
  unfold applyFailedStep
  rw [h]

theorem applyFailedStep_some (line : List Char) (st : ParseSets)
    (m : List Char → Option String) (g : String) (h : m line = some g) :
    applyFailedStep line st m =
      { st with failed := setAdd st.failed g, passed := setRemove st.passed g } := by
  unfold applyFailedStep
  rw [h]

theorem applySkippedStep_none (line : List Char) (st : ParseSets)
    (m : List Char → Option String) (h : m line = none) :
    applySkippedStep line st m = st := by
  unfold applySkippedStep
  rw [h]

theorem applySkippedStep_some (line : List Char) (st : ParseSets)
    (m : List Char → Option String) (g : String) (h : m line = some g) :
    applySkippedStep line st m = { st with skipped := setAdd st.skipped g } := by
  unfold applySkippedStep
  rw [h]

theorem passedFold_inv (line : List Char) (ms : List (List Char → Option String))
    (st : ParseSets) :
    (ms.foldl (applyPassedStep line) st).failed = st.failed ∧
    (ms.foldl (applyPassedStep line) st).skipped = st.skipped ∧
    (∀ id : String, id ∈ st.failed → id ∉ st.passed →
      id ∉ (ms.foldl (applyPassedStep line) st).passed) := by
  induction ms generalizing st with
  | nil => exact ⟨rfl, rfl, fun _ _ h => h⟩
  | cons m rest ih =>
    rw [List.foldl_cons]
    cases hm : m line with
    | none =>
      rw [applyPassedStep_none line st m hm]
      exact ih st
    | some g =>
      rw [applyPassedStep_some line st m g hm]
      by_cases hg : elemStr g st.failed = true
      · rw [if_pos hg]
        exact ih st
      · rw [if_neg hg]
        obtain ⟨ihf, ihs, ihp⟩ := ih { st with passed := setAdd st.passed g }
        refine ⟨ihf, ihs, fun id hidf hidp => ihp id hidf ?_⟩
        show id ∉ setAdd st.passed g
        rw [mem_setAdd]
        rintro (h | rfl)
        · exact hidp h
        · exact hg ((elemStr_iff id st.failed).mpr hidf)

theorem failedFold_pres (line : List Char) (ms : List (List Char → Option String))
    (st : ParseSets) (id : String) (hf : id ∈ st.failed) (hp : id ∉ st.passed) :
    id ∈ (ms.foldl (applyFailedStep line) st).failed ∧
    id ∉ (ms.foldl (applyFailedStep line) st).passed := by
  induction ms generalizing st with
  | nil => exact ⟨hf, hp⟩
  | cons m rest ih =>
    rw [List.foldl_cons]
    cases hm : m line with
    | none =>
      rw [applyFailedStep_none line st m hm]
      exact ih st hf hp
    | some g =>
      rw [applyFailedStep_some line st m g hm]
      refine ih _ ?_ ?_
      · show id ∈ setAdd st.failed g
        rw [mem_setAdd]
        exact Or.inl hf
      · show id ∉ setRemove st.passed g
        rw [mem_setRemove]
        rintro ⟨h, _⟩
        exact hp h

theorem failedFold_est (line : List Char) (ms : List (List Char → Option String))
    (st : ParseSets) (id : String) (h : ∃ m ∈ ms, m line = some id) :
    id ∈ (ms.foldl (applyFailedStep line) st).failed ∧
    id ∉ (ms.foldl (applyFailedStep line) st).passed := by
  induction ms generalizing st with
  | nil => simp at h
  | cons m rest ih =>
    rw [List.foldl_cons]
    obtain ⟨m0, hm0, hmatch⟩ := h
    rcases List.mem_cons.mp hm0 with rfl | hm0
    · rw [applyFailedStep_some line st m0 id hmatch]
      refine failedFold_pres line rest _ id ?_ ?_
      · show id ∈ setAdd st.failed id
        rw [mem_setAdd]
        exact Or.inr rfl
      · show id ∉ setRemove st.passed id
        rw [mem_setRemove]
        rintro ⟨_, hne⟩
        exact hne rfl
    · exact ih _ ⟨m0, hm0, hmatch⟩

theorem skippedFold_fields (line : List Char) (ms : List (List Char → Option String))
    (st : ParseSets) :
    (ms.foldl (applySkippedStep line) st).passed = st.passed ∧
    (ms.foldl (applySkippedStep line) st).failed = st.failed := by
  induction ms generalizing st with
  | nil => exact ⟨rfl, rfl⟩
  | cons m rest ih =>
    rw [List.foldl_cons]
    cases hm : m line with
    | none =>
      rw [applySkippedStep_none line st m hm]
      exact ih st
    | some g =>
      rw [applySkippedStep_some line st m g hm]
      exact ih { st with skipped := setAdd st.skipped g }

theorem procLine_pres (st : ParseSets) (line : List Char) (id : String)
    (hf : id ∈ st.failed) (hp : id ∉ st.passed) :
    id ∈ (procLine st line).failed ∧ id ∉ (procLine st line).passed := by
  unfold procLine
  obtain ⟨e1, _, e3⟩ := passedFold_inv line passed_res st
  have h1f : id ∈ (passed_res.foldl (applyPassedStep line) st).failed := by
    rw [e1]; exact hf
  have h1p : id ∉ (passed_res.foldl (applyPassedStep line) st).passed := e3 id hf hp
  obtain ⟨h2f, h2p⟩ := failedFold_pres line failed_res _ id h1f h1p
  obtain ⟨e4, e5⟩ := skippedFold_fields line skipped_res
    (failed_res.foldl (applyFailedStep line) (passed_res.foldl (applyPassedStep line) st))
  rw [e4, e5]
  exact ⟨h2f, h2p⟩

theorem procLine_est (st : ParseSets) (line : List Char) (id : String)
    (h : ∃ m ∈ failed_res, m line = some id) :
    id ∈ (procLine st line).failed ∧ id ∉ (procLine st line).passed := by
  unfold procLine
  obtain ⟨h2f, h2p⟩ :=
    failedFold_est line failed_res (passed_res.foldl (applyPassedStep line) st) id h
  obtain ⟨e4, e5⟩ := skippedFold_fields line skipped_res
    (failed_res.foldl (applyFailedStep line) (passed_res.foldl (applyPassedStep line) st))
  rw [e4, e5]
  exact ⟨h2f, h2p⟩

theorem foldLines_pres (ls : List (List Char)) (st : ParseSets) (id : String)
    (hf : id ∈ st.failed) (hp : id ∉ st.passed) :
    id ∈ (ls.foldl procLine st).failed ∧ id ∉ (ls.foldl procLine st).passed := by
  induction ls generalizing st with
  | nil => exact ⟨hf, hp⟩
  | cons l rest ih =>
    rw [List.foldl_cons]
    obtain ⟨h1, h2⟩ := procLine_pres st l id hf hp
    exact ih (procLine st l) h1 h2

theorem fallbackSets_failed_dominates (log : String) (id : String)
    (h : ∃ line ∈ splitlines log.toList, ∃ m ∈ failed_res, m line = some id) :
    id ∈ (fallbackSets log).failed ∧ id ∉ (fallbackSets log).passed := by
  obtain ⟨line, hline, hmatch⟩ := h
  obtain ⟨pre, post, hsplit⟩ := List.append_of_mem hline
  unfold fallbackSets
  rw [hsplit, List.foldl_append, List.foldl_cons]
  obtain ⟨h1, h2⟩ := procLine_est (pre.foldl procLine ⟨[], [], []⟩) line id hmatch
  exact foldLines_pres post _ id h1 h2

/-! ## Lemmas for the sentinel check of the XML tier -/

theorem beginsWith_exists (pre l : List Char) (h : beginsWith pre l = true) :
    ∃ t, l = pre ++ t := by
  induction pre generalizing l with
  | nil => exact ⟨l, rfl⟩
  | cons a as ih =>
    cases l with
    | nil => simp [beginsWith] at h
    | cons b bs =>
      rw [beginsWith, Bool.and_eq_true] at h
      obtain ⟨hab, hrest⟩ := h
      obtain ⟨t, ht⟩ := ih bs hrest
      refine ⟨t, ?_⟩
      rw [List.cons_append, ← ht]
      have : a = b := by simpa using hab
      rw [this]

theorem firstIdx_some_begins (needle hay : List Char) (i : Nat)
    (h : firstIdx needle hay = some i) :
    beginsWith needle (hay.drop i) = true := by
  induction hay generalizing i with
  | nil =>
    rw [firstIdx] at h
    by_cases hb : beginsWith needle [] = true
    · rw [if_pos hb] at h
      cases h
      exact hb
    · rw [if_neg hb] at h
      cases h
  | cons c rest ih =>
    rw [firstIdx] at h
    by_cases hb : beginsWith needle (c :: rest) = true
    · rw [if_pos hb] at h
      cases h
      exact hb
    · rw [if_neg hb] at h
      cases hfi : firstIdx needle rest with
      | none => rw [hfi] at h; cases h
      | some j =>
        rw [hfi] at h
        have h2 : j + 1 = i := Option.some.inj h
        cases h2
        rw [List.drop_succ_cons]
        exact ih j hfi

theorem ET_decl_prefix_none (k : Nat) (hk : k ≤ 12) :
    ET_fromstring (xmlDeclChars.take k) = none := by
  interval_cases k <;> rfl

theorem ET_slice_none (cs : List Char) (xs : Nat)
    (hb : beginsWith xmlDeclChars (cs.drop xs) = true) :
    ET_fromstring ((cs.take 12).drop xs) = none := by
  by_cases hlt : xs < 12
  · have h1 : (cs.take 12).drop xs = (cs.drop xs).take (12 - xs) :=
      List.drop_take 12 xs cs
    obtain ⟨t, ht⟩ := beginsWith_exists _ _ hb
    have hlen : xmlDeclChars.length = 38 := rfl
    have h2 : (xmlDeclChars ++ t).take (12 - xs) = xmlDeclChars.take (12 - xs) :=
      List.take_append_of_le_length (by omega)
    rw [h1, ht, h2]
    exact ET_decl_prefix_none (12 - xs) (by omega)
  · have hlen : (cs.take 12).length ≤ 12 := by
      rw [List.length_take]
      exact min_le_left _ _
    have h1 : (cs.take 12).drop xs = [] :=
      List.drop_eq_nil_of_le (le_trans hlen (by omega))
    rw [h1]
    rfl

theorem parseSetsOf_fallback (log : String)
    (h : firstIdx xmlDeclChars log.toList = none ∨
         firstIdx endTagChars log.toList = none) :
    parseSetsOf log = fallbackSets log := by
  rcases h with h | h
  · simp only [parseSetsOf, h]
  · cases hstart : firstIdx xmlDeclChars log.toList with
    | none => simp only [parseSetsOf, hstart]
    | some xs =>
      simp only [parseSetsOf, hstart, h]
      rw [show endTagChars.length - 1 = 12 from rfl]
      rw [ET_slice_none log.toList xs (firstIdx_some_begins _ _ _ hstart)]

/-! ## The claims -/

/-- C1: when both phases complete, `collect_tests_for_instance` returns
`FAIL_TO_PASS = sorted((baseline.failed ∪ baseline.errored) ∩ patched.passed)`
and `PASS_TO_PASS = sorted(baseline.passed ∩ patched.passed)`; membership in
the two label lists is exactly membership in those intersections. -/
theorem spec_C1_label_computation (benv aenv : ExecEnv) (p : String)
    (b a : TestResult)
    (hb : (run_tests_in_container benv none).1 = some b)
    (ha : (run_tests_in_container aenv (some p)).1 = some a) :
    collect_tests_for_instance false benv false aenv p =
      ((sortList (setInter (setUnion b.failed b.errors) a.passed),
        sortList (setInter b.passed a.passed)), true) ∧
    (∀ t : String,
      t ∈ (collect_tests_for_instance false benv false aenv p).1.1 ↔
        ((t ∈ b.failed ∨ t ∈ b.errors) ∧ t ∈ a.passed)) ∧
    (∀ t : String,
      t ∈ (collect_tests_for_instance false benv false aenv p).1.2 ↔
        (t ∈ b.passed ∧ t ∈ a.passed)) := by
  have hc : collect_tests_for_instance false benv false aenv p =
      ((sortList (setInter (setUnion b.failed b.errors) a.passed),
        sortList (setInter b.passed a.passed)), true) := by
    simp [collect_tests_for_instance, hb, ha]
  refine ⟨hc, ?_, ?_⟩
  · intro t
    rw [hc]
    show t ∈ sortList (setInter (setUnion b.failed b.errors) a.passed) ↔ _
    rw [mem_sortList, mem_setInter, mem_setUnion]
  · intro t
    rw [hc]
    show t ∈ sortList (setInter b.passed a.passed) ↔ _
    rw [mem_sortList, mem_setInter]

/-- Witness for C1: the spec's concrete scenario — baseline
`{failed: {"A"}, passed: {"B"}}`, patched `{passed: {"A","B"}}` — yields
`FAIL_TO_PASS = ["A"]`, `PASS_TO_PASS = ["B"]`. -/
theorem spec_C1_witness :
    (collect_tests_for_instance false benvScenario false aenvScenario "p").1 =
      (["A"], ["B"]) := by
  have h := spec_C1_label_computation benvScenario aenvScenario "p"
    (TestResult.from_status_map (parse_log_gradle benvScenario.testOutput))
    (TestResult.from_status_map (parse_log_gradle aenvScenario.testOutput))
    rfl rfl
  rw [h.1]
  rfl

/-- C2: when the baseline phase fails to produce a result (its build raises,
or `run_tests_in_container` returns `None` — patch failure, timeout, parse
exception), the instance gets `FAIL_TO_PASS = []`, `PASS_TO_PASS = []` and
the patched run is never executed. -/
theorem spec_C2_abort_on_baseline_failure (b1 : Bool) (benv : ExecEnv)
    (b2 : Bool) (aenv : ExecEnv) (patch : String)
    (h : b1 = true ∨ (run_tests_in_container benv none).1 = none) :
    collect_tests_for_instance b1 benv b2 aenv patch = (([], []), false) := by
  rcases h with h | h
  · simp [collect_tests_for_instance, h]
  · by_cases hb : b1 = true
    · simp [collect_tests_for_instance, hb]
    · have hb2 : b1 = false := by
        cases b1
        · rfl
        · exact absurd rfl hb
      simp [collect_tests_for_instance, hb2, h]

/-- Witness for C2: a timed-out baseline run produces `([], [])` and the
patched phase is skipped. -/
theorem spec_C2_witness :
    collect_tests_for_instance false benvTimeout false benvTimeout "patch" =
      (([], []), false) :=
  spec_C2_abort_on_baseline_failure false benvTimeout false benvTimeout "patch"
    (Or.inr rfl)

/-- C3 counterexample: in the log `"a > b FAILED\na > b SKIPPED"` the
identifier `a > b` carries both a failed and a skipped marker, and the final
verdict is SKIPPED — not the FAILED the claimed precedence
(failed/error > skipped > passed) would give. -/
theorem spec_C3_counterexample :
    dictLookup (parse_log_gradle logFailAndSkip) "a > b" = some TestStatus.SKIPPED ∧
    ¬(dictLookup (parse_log_gradle logFailAndSkip) "a > b" = some TestStatus.FAILED) := by
  constructor
  · rfl
  · intro h
    have h2 : TestStatus.SKIPPED = TestStatus.FAILED := by
      have h1 : dictLookup (parse_log_gradle logFailAndSkip) "a > b" =
          some TestStatus.SKIPPED := rfl
      rw [h1] at h
      exact Option.some.inj h
    exact absurd h2 (by decide)

/-- C3 amended: the status map is written in the order passed, then failed,
then skipped (then `static_verification`), with later writes overwriting
earlier ones, so a multiply-marked identifier resolves by the precedence
skipped > failed/error > passed; `parse_log_gradle` produces its map through
this conversion in both tiers. -/
theorem spec_C3_amended :
    (∀ (st : ParseSets) (sent : Bool) (t : String),
      ¬(t = "static_verification") →
      dictLookup (buildStatusMap st sent) t =
        (if elemStr t st.skipped = true then some TestStatus.SKIPPED
         else if elemStr t st.failed = true then some TestStatus.FAILED
         else if elemStr t st.passed = true then some TestStatus.PASSED
         else none)) ∧
    (∀ log : String,
      parse_log_gradle log = buildStatusMap (parseSetsOf log) (hasSentinel log)) := by
  constructor
  · intro st sent t ht
    rw [buildStatusMap_lookup, if_neg ht]
  · intro log
    rfl

/-- C4: for every status map `parse_log_gradle` returns, the `TestResult`
built from it has four pairwise-disjoint sets whose union holds exactly the
identifiers present in the map. -/
theorem spec_C4_verdict_partition (log : String) :
    (setInter (TestResult.from_status_map (parse_log_gradle log)).passed
      (TestResult.from_status_map (parse_log_gradle log)).failed = [] ∧
     setInter (TestResult.from_status_map (parse_log_gradle log)).passed
      (TestResult.from_status_map (parse_log_gradle log)).skipped = [] ∧
     setInter (TestResult.from_status_map (parse_log_gradle log)).passed
      (TestResult.from_status_map (parse_log_gradle log)).errors = [] ∧
     setInter (TestResult.from_status_map (parse_log_gradle log)).failed
      (TestResult.from_status_map (parse_log_gradle log)).skipped = [] ∧
     setInter (TestResult.from_status_map (parse_log_gradle log)).failed
      (TestResult.from_status_map (parse_log_gradle log)).errors = [] ∧
     setInter (TestResult.from_status_map (parse_log_gradle log)).skipped
      (TestResult.from_status_map (parse_log_gradle log)).errors = []) ∧
    (∀ t : String,
      t ∈ (TestResult.from_status_map (parse_log_gradle log)).all_tests ↔
        t ∈ dictKeys (parse_log_gradle log)) := by
  have hnd : (dictKeys (parse_log_gradle log)).Nodup :=
    buildStatusMap_keys_nodup (parseSetsOf log) (hasSentinel log)
  have hvals : ∀ p ∈ parse_log_gradle log,
      p.2 = TestStatus.PASSED ∨ p.2 = TestStatus.FAILED ∨ p.2 = TestStatus.SKIPPED :=
    buildStatusMap_vals (parseSetsOf log) (hasSentinel log)
  have hdisj : ∀ (v1 v2 : String), ¬(v1 = v2) → ∀ t : String,
      (t, v1) ∈ parse_log_gradle log → (t, v2) ∈ parse_log_gradle log → False := by
    intro v1 v2 hne t h1 h2
    exact hne (vals_eq_of_nodup (parse_log_gradle log) t v1 v2 hnd h1 h2)
  constructor
  · refine ⟨?_, ?_, ?_, ?_, ?_, ?_⟩ <;>
      (apply List.filter_eq_nil_iff.mpr
       intro t ht
       rw [Bool.not_eq_true, ← Bool.not_eq_true (elemStr _ _), elemStr_iff])
    · rw [from_status_map_passed] at ht
      intro hmem
      rw [from_status_map_failed] at hmem
      exact hdisj TestStatus.PASSED TestStatus.FAILED (by decide) t ht hmem
    · rw [from_status_map_passed] at ht
      intro hmem
      rw [from_status_map_skipped] at hmem
      exact hdisj TestStatus.PASSED TestStatus.SKIPPED (by decide) t ht hmem
    · rw [from_status_map_passed] at ht
      intro hmem
      rw [from_status_map_errors] at hmem
      exact hdisj TestStatus.PASSED TestStatus.ERROR (by decide) t ht hmem
    · rw [from_status_map_failed] at ht
      intro hmem
      rw [from_status_map_skipped] at hmem
      exact hdisj TestStatus.FAILED TestStatus.SKIPPED (by decide) t ht hmem
    · rw [from_status_map_failed] at ht
      intro hmem
      rw [from_status_map_errors] at hmem
      exact hdisj TestStatus.FAILED TestStatus.ERROR (by decide) t ht hmem
    · rw [from_status_map_skipped] at ht
      intro hmem
      rw [from_status_map_errors] at hmem
      exact hdisj TestStatus.SKIPPED TestStatus.ERROR (by decide) t ht hmem
  · intro t
    unfold TestResult.all_tests
    rw [mem_setUnion, mem_setUnion, mem_setUnion,
        from_status_map_passed, from_status_map_failed, from_status_map_skipped,
        from_status_map_errors]
    constructor
    · rintro (((h | h) | h) | h)
      · exact List.mem_map.mpr ⟨(t, TestStatus.PASSED), h, rfl⟩
      · exact List.mem_map.mpr ⟨(t, TestStatus.FAILED), h, rfl⟩
      · exact List.mem_map.mpr ⟨(t, TestStatus.SKIPPED), h, rfl⟩
      · exact List.mem_map.mpr ⟨(t, TestStatus.ERROR), h, rfl⟩
    · intro hk
      obtain ⟨p, hp, hfst⟩ := List.mem_map.mp hk
      obtain ⟨k, v⟩ := p
      dsimp at hfst
      subst hfst
      rcases hvals (k, v) hp with hv | hv | hv <;> (dsimp at hv; subst hv)
      · exact Or.inl (Or.inl (Or.inl hp))
      · exact Or.inl (Or.inl (Or.inr hp))
      · exact Or.inl (Or.inr hp)

/-- C5: patch application tries the strategies of `GIT_APPLY_CMDS` in the
fixed strict-to-lenient order, stops at the first success (a later, more
lenient strategy succeeding makes the run proceed and never report patch
failure), and when all strategies fail the phase returns `None`, which in
`collect_tests_for_instance` degrades the labels to `([], [])` rather than
crashing. -/
theorem spec_C5_patch_strategy_order :
    GIT_APPLY_CMDS =
      ["git apply --verbose", "git apply --verbose --reject",
       "patch --batch --fuzz=5 -p1 -i"] ∧
    (∀ (env : ExecEnv) (p : String) (i : Nat),
      i < GIT_APPLY_CMDS.length →
      env.raised = false →
      env.timedOut = false →
      ¬(pyStrip p = "") →
      (GIT_APPLY_CMDS.take i).all (fun c => !(env.applySucceeds c)) = true →
      env.applySucceeds (GIT_APPLY_CMDS.getD i "") = true →
      appliedStrategy env = some (GIT_APPLY_CMDS.getD i "") ∧
      (run_tests_in_container env (some p)).1.isSome = true) ∧
    (∀ (benv env : ExecEnv) (p : String) (b : TestResult),
      (∀ c ∈ GIT_APPLY_CMDS, env.applySucceeds c = false) →
      env.raised = false →
      ¬(pyStrip p = "") →
      (run_tests_in_container env (some p)).1 = none ∧
      ((run_tests_in_container benv none).1 = some b →
        collect_tests_for_instance false benv false env p = (([], []), true))) := by
  refine ⟨rfl, ?_, ?_⟩
  · intro env p i hi hr ht hp hall hsucc
    have hpne : ¬(p = "") := by
      intro he
      apply hp
      rw [he]
      rfl
    have happ : appliedStrategy env = some (GIT_APPLY_CMDS.getD i "") := by
      unfold appliedStrategy
      rw [show GIT_APPLY_CMDS.length = 3 from rfl] at hi
      interval_cases i
      · have h0 : env.applySucceeds "git apply --verbose" = true := hsucc
        show List.find? env.applySucceeds
          ("git apply --verbose" :: ["git apply --verbose --reject",
            "patch --batch --fuzz=5 -p1 -i"]) = some "git apply --verbose"
        rw [List.find?_cons_of_pos _ h0]
      · have h1 : env.applySucceeds "git apply --verbose --reject" = true := hsucc
        have hall2 : ∀ x ∈ List.take 1 GIT_APPLY_CMDS, env.applySucceeds x = false := by
          simpa using hall
        have h0 : env.applySucceeds "git apply --verbose" = false :=
          hall2 "git apply --verbose" (by decide)
        show List.find? env.applySucceeds
          ("git apply --verbose" :: "git apply --verbose --reject" ::
            ["patch --batch --fuzz=5 -p1 -i"]) = some "git apply --verbose --reject"
        rw [List.find?_cons_of_neg _ (by simp [h0]), List.find?_cons_of_pos _ h1]
      · have h2 : env.applySucceeds "patch --batch --fuzz=5 -p1 -i" = true := hsucc
        have hall2 : ∀ x ∈ List.take 2 GIT_APPLY_CMDS, env.applySucceeds x = false := by
          simpa using hall
        have h01 : env.applySucceeds "git apply --verbose" = false ∧
            env.applySucceeds "git apply --verbose --reject" = false :=
          ⟨hall2 "git apply --verbose" (by decide),
           hall2 "git apply --verbose --reject" (by decide)⟩
        show List.find? env.applySucceeds
          ("git apply --verbose" :: "git apply --verbose --reject" ::
            ["patch --batch --fuzz=5 -p1 -i"]) = some "patch --batch --fuzz=5 -p1 -i"
        rw [List.find?_cons_of_neg _ (by simp [h01.1]),
            List.find?_cons_of_neg _ (by simp [h01.2]),
            List.find?_cons_of_pos _ h2]
    constructor
    · exact happ
    · simp only [run_tests_in_container, patchApplyOk, hr, ht, happ]
      simp [hpne, hp]
      split <;> rfl
  · intro benv env p b hfail hr hp
    have hpne : ¬(p = "") := by
      intro he
      apply hp
      rw [he]
      rfl
    have happ : appliedStrategy env = none := by
      unfold appliedStrategy
      apply List.find?_eq_none.mpr
      intro c hc
      rw [hfail c hc]
      simp
    have hnone : (run_tests_in_container env (some p)).1 = none := by
      simp only [run_tests_in_container, patchApplyOk, hr, happ]
      simp [hpne, hp]
    refine ⟨hnone, fun hbefore => ?_⟩
    simp [collect_tests_for_instance, hbefore, hnone]

/-- Witness for C5: a patch only the lenient `patch --fuzz=5` strategy can
apply is reported through that strategy and the run proceeds; an
unappliable patch yields `None` and the instance degrades to `([], [])`. -/
theorem spec_C5_witness :
    (appliedStrategy envFuzzyOnly = some "patch --batch --fuzz=5 -p1 -i" ∧
      (run_tests_in_container envFuzzyOnly (some "some patch")).1.isSome = true) ∧
    ((run_tests_in_container envNoApply (some "some patch")).1 = none ∧
      collect_tests_for_instance false benvScenario false envNoApply "some patch" =
        (([], []), true)) := by
  constructor
  · exact spec_C5_patch_strategy_order.2.1 envFuzzyOnly "some patch" 2
      (by decide) rfl rfl (by decide) rfl rfl
  · have h := spec_C5_patch_strategy_order.2.2 benvScenario envNoApply "some patch"
      (TestResult.from_status_map (parse_log_gradle benvScenario.testOutput))
      (fun c _ => rfl) rfl (by decide)
    exact ⟨h.1, h.2 rfl⟩

/-- C6: in the free-text fallback, a failed match dominates: once some line
matches a failed pattern for an identifier, the identifier ends in
`failed_tests` and out of `passed_tests` no matter which passed patterns it
matched on any other line, and (unless a skipped pattern also matched it)
its final verdict in the fallback status map is FAILED. -/
theorem spec_C6_failed_dominates (log : String) (id : String)
    (h : ∃ line ∈ splitlines log.toList, ∃ m ∈ failed_res, m line = some id) :
    id ∈ (fallbackSets log).failed ∧
    id ∉ (fallbackSets log).passed ∧
    (id ∉ (fallbackSets log).skipped → ¬(id = "static_verification") →
      dictLookup (fallback_parse log) id = some TestStatus.FAILED) := by
  obtain ⟨hf, hp⟩ := fallbackSets_failed_dominates log id h
  refine ⟨hf, hp, fun hs hid => ?_⟩
  unfold fallback_parse
  rw [buildStatusMap_lookup, if_neg hid]
  rw [if_neg ?_, if_pos ((elemStr_iff id (fallbackSets log).failed).mpr hf)]
  rw [Bool.not_eq_true (elemStr _ _), ← Bool.not_eq_true (elemStr _ _)]
  intro hmem
  exact hs ((elemStr_iff id (fallbackSets log).skipped).mp hmem)

/-- Witness for C6: the spec's scenario — `a > b` matches a passed pattern
on line 3 and a failed pattern on line 9 — ends with the verdict FAILED. -/
theorem spec_C6_witness :
    dictLookup (fallback_parse logPassThenFail) "a > b" = some TestStatus.FAILED :=
  (spec_C6_failed_dominates logPassThenFail "a > b"
      ⟨"a > b FAILED".toList, by decide,
        matchQual " FAILED".toList, List.Mem.tail _ (List.Mem.head _), rfl⟩).2.2
    (by decide) (by decide)

/-- C7: on both tiers the returned map binds `static_verification`, to
PASSED exactly when the literal sentinel `STATIC VERIFICATION SUCCESS`
occurs in the raw log and to FAILED otherwise. -/
theorem spec_C7_static_verification (log : String) :
    dictLookup (parse_log_gradle log) "static_verification" =
      some (if hasSentinel log then TestStatus.PASSED else TestStatus.FAILED) ∧
    dictLookup (fallback_parse log) "static_verification" =
      some (if hasSentinel log then TestStatus.PASSED else TestStatus.FAILED) :=
  ⟨buildStatusMap_lookup_static (parseSetsOf log) (hasSentinel log),
   buildStatusMap_lookup_static (fallbackSets log) (hasSentinel log)⟩

/-- C8: when the XML declaration or the `</testsuites>` end sentinel is
absent from the log, `parse_log_gradle` produces exactly the free-text
fallback's result (when only the end sentinel is missing, the structured
branch is entered with a garbage slice, `ET.fromstring` raises, and the
fallback runs). -/
theorem spec_C8_missing_sentinel_fallback (log : String)
    (h : firstIdx xmlDeclChars log.toList = none ∨
         firstIdx endTagChars log.toList = none) :
    parse_log_gradle log = fallback_parse log ∧
    parseSetsOf log = fallbackSets log := by
  have he := parseSetsOf_fallback log h
  constructor
  · unfold parse_log_gradle fallback_parse
    rw [he]
  · exact he

/-- Witness for C8: a log that starts with the XML declaration but lacks
`</testsuites>` is parsed by the fallback tier. -/
theorem spec_C8_witness :
    parse_log_gradle logDeclNoEnd = fallback_parse logDeclNoEnd :=
  (spec_C8_missing_sentinel_fallback logDeclNoEnd (Or.inr rfl)).1

/-- C9: re-running the orchestrator when every dataset instance already has
both label fields in the output file filters out every instance, and `main`
returns before any Docker client is created or image is built, leaving the
output file untouched. -/
theorem spec_C9_idempotent_rerun (dataset : List DatasetInstance)
    (output : List DatasetInstance) (ids : Option (List String))
    (h : ∀ inst ∈ dataset, ∃ out ∈ output,
      out.instance_id = inst.instance_id ∧ out.hasFailToPass = true ∧
      out.hasPassToPass = true) :
    get_instances_to_process dataset (some output) ids = [] ∧
    main_instances_to_run dataset (some output) ids = none := by
  have hg : get_instances_to_process dataset (some output) ids = [] := by
    unfold get_instances_to_process
    apply List.filter_eq_nil_iff.mpr
    intro inst hinst
    have hin : inst ∈ dataset := by
      cases ids with
      | none => exact hinst
      | some l => exact (List.mem_filter.mp hinst).1
    obtain ⟨out, hout, hid, h1, h2⟩ := h inst hin
    have hcomp : inst.instance_id ∈
        (output.filter (fun i => i.hasFailToPass && i.hasPassToPass)).map
          (fun i => i.instance_id) :=
      List.mem_map.mpr ⟨out, List.mem_filter.mpr ⟨hout, by rw [h1, h2]; rfl⟩, hid⟩
    intro habs
    dsimp only at habs
    rw [(elemStr_iff _ _).mpr hcomp] at habs
    simp at habs
  refine ⟨hg, ?_⟩
  unfold main_instances_to_run
  rw [hg]
  rfl

/-- Witness for C9: a fully-labelled two-instance dataset yields no
instances to build. -/
theorem spec_C9_witness :
    main_instances_to_run datasetTwo (some outputTwoDone) none = none :=
  (spec_C9_idempotent_rerun datasetTwo outputTwoDone none (by decide)).2

/-- C10: `parse_log_gradle` always returns a non-empty map (it always binds
`static_verification`), so the `if not status_map:` branch of
`run_tests_in_container` — log "No tests found in output" and return an
empty `TestResult` — never executes. -/
theorem spec_C10_empty_branch_unreachable :
    (∀ log : String, (parse_log_gradle log).isEmpty = false) ∧
    (∀ (env : ExecEnv) (patch_content : Option String),
      (run_tests_in_container env patch_content).2 = false) := by
  have hne : ∀ log : String, (parse_log_gradle log).isEmpty = false := fun log =>
    buildStatusMap_isEmpty (parseSetsOf log) (hasSentinel log)
  refine ⟨hne, fun env patch_content => ?_⟩
  unfold run_tests_in_container
  split
  · rfl
  · split
    · rfl
    · split
      · rfl
      · split
        · next hemp =>
          rw [hne env.testOutput] at hemp
          cases hemp
        · rfl

